import Mathlib

/-!
Verification of the FB-Kiosk cart/order management core.

The definitions below are a shallow embedding of the `Cart` class and
the `validate_order_fields` function of `main.py`.  Python mutation is
rendered as explicit state passing: every method that mutates the cart
returns the new `Cart` value alongside its Python return value.
Quantities are Python ints, embedded as `Int`.
-/

/-- A cart line: one (item_name, quantity) tuple of the `_items` list. -/
abbrev CartLine := String × Int

/-- The `Cart` class state: its `_items` list and `max_per_item`. -/
structure Cart where
  items : List CartLine
  max_per_item : Int
deriving DecidableEq, Repr

/-- The loop of `Cart.find_index`: linear scan over `enumerate(self._items)`,
returning the index of the first line whose name matches, else `none`. -/
def find_idx (name : String) : List CartLine → Option Nat
  | [] => none
  | (n, _) :: rest => if n = name then some 0 else (find_idx name rest).map (· + 1)

/-- `Cart.find_index`: index of item name in the cart, or `none` if not there. -/
def Cart.find_index (c : Cart) (name : String) : Option Nat :=
  find_idx name c.items

/-- `Cart.to_list`: returns a copy of the cart contents (as a value).  The
aliasing aspect of the copy is modelled separately by `to_list_heap`. -/
def Cart.to_list (c : Cart) : List CartLine :=
  c.items

/-- `Cart.add_item`: add an item to the cart, capping at `max_per_item`.
Returns the new cart state together with the Python `(ok, message)` pair. -/
def Cart.add_item (c : Cart) (name : String) (qty : Int) : Cart × Bool × String :=
  if qty < 1 then
    (c, false, "Quantity must be at least 1.")
  else
    match c.find_index name with
    | none =>
      let capped := min qty c.max_per_item
      let c2 : Cart := { c with items := c.items ++ [(name, capped)] }
      if qty > c.max_per_item then
        (c2, true, "Added (capped at " ++ toString c.max_per_item ++ ").")
      else
        (c2, true, "Added.")
    | some idx =>
      let existing_qty := (c.items.getD idx ("", 0)).2
      let new_qty := min (existing_qty + qty) c.max_per_item
      let c2 : Cart := { c with items := c.items.set idx (name, new_qty) }
      if existing_qty + qty > c.max_per_item then
        (c2, true, "Updated (capped at " ++ toString c.max_per_item ++ ").")
      else
        (c2, true, "Updated.")

/-- `Cart.remove_item`: remove an item by name (`pop` at the found index).
Returns the new cart state together with the Python boolean. -/
def Cart.remove_item (c : Cart) (name : String) : Cart × Bool :=
  match c.find_index name with
  | some idx => ({ c with items := c.items.eraseIdx idx }, true)
  | none => (c, false)

/-- `Cart.adjust_quantity`: set the quantity for an existing item within
range 1..max_per_item.  Returns the new cart state and `(ok, message)`. -/
def Cart.adjust_quantity (c : Cart) (name : String) (qty : Int) : Cart × Bool × String :=
  match c.find_index name with
  | none => (c, false, "Item not in cart.")
  | some idx =>
    if qty < 1 ∨ qty > c.max_per_item then
      (c, false, "Quantity must be between 1 and " ++ toString c.max_per_item ++ ".")
    else
      ({ c with items := c.items.set idx (name, qty) }, true, "Quantity updated.")

/-- `Cart.clear`: empties the `_items` list. -/
def Cart.clear (c : Cart) : Cart :=
  { c with items := [] }

/-- `Cart.is_empty`. -/
def Cart.is_empty (c : Cart) : Bool :=
  c.items.length = 0

/-- One call on the cart, for stating invariants over call sequences. -/
inductive CartOp where
  | add (name : String) (qty : Int)
  | remove (name : String)
  | adjust (name : String) (qty : Int)
  | clearAll
deriving DecidableEq, Repr

/-- The state transition of one call (the message part is dropped). -/
def CartOp.apply (c : Cart) : CartOp → Cart
  | .add n q => (c.add_item n q).1
  | .remove n => (c.remove_item n).1
  | .adjust n q => (c.adjust_quantity n q).1
  | .clearAll => c.clear

/-- Whether an op is an `add_item` or an `adjust_quantity` call. -/
def CartOp.addOrAdjust : CartOp → Bool
  | .add _ _ => true
  | .adjust _ _ => true
  | _ => false

/-- Run a sequence of calls, left to right, from a start state. -/
def runOps (c : Cart) : List CartOp → Cart
  | [] => c
  | op :: rest => runOps (op.apply c) rest

/-- The global state visible to `validate_order_fields`: the module-level
`cart` singleton. -/
structure KioskState where
  cart : Cart
deriving DecidableEq, Repr

/-- Python `str.strip()`: drop leading and trailing whitespace. -/
def py_strip (s : String) : String :=
  ⟨((s.data.dropWhile Char.isWhitespace).reverse.dropWhile Char.isWhitespace).reverse⟩

/-- Python `str.isdigit` restricted to the decimal digits: true iff the
string is non-empty and every character is a decimal digit. -/
def str_isdigit (s : String) : Bool :=
  !s.data.isEmpty && s.data.all Char.isDigit

/-- Python `int(...)` applied to a string of decimal digits. -/
def parse_digits (s : String) : Nat :=
  s.data.foldl (fun acc c => 10 * acc + (c.toNat - Char.toNat '0')) 0

/-- `validate_order_fields`: existence, type and range checks on order
fields.  Translated in state-passing style: the global state is threaded
through and returned with the `(is_valid, message)` pair; the function
only reads `cart.max_per_item` from it. -/
def validate_order_fields (s : KioskState) (item_name : String) (quantity : String) :
    KioskState × Bool × String :=
  if item_name = "" ∨ py_strip item_name = "" then
    (s, false, "Item name is required.")
  else
    let q_str := py_strip quantity
    if ¬ (str_isdigit q_str = true) then
      (s, false, "Quantity must be a whole number.")
    else
      let q : Int := (parse_digits q_str : Nat)
      if q ≤ 0 then
        (s, false, "Quantity must be greater than zero.")
      else if q > s.cart.max_per_item then
        (s, false, "Quantity must be no more than " ++ toString s.cart.max_per_item ++ ".")
      else
        (s, true, "")

/-- A heap of Python list objects, addressed by position, to model the
object identity of `to_list` (which returns `list(self._items)`). -/
abbrev Heap := List (List CartLine)

/-- `to_list` at heap level: the cart internal list lives at address `a`;
`list(self._items)` allocates a fresh list object holding a copy of the
contents and returns its address. -/
def to_list_heap (h : Heap) (a : Nat) : Heap × Nat :=
  (h ++ [h.getD a []], h.length)

/-- Mutate the list object at address `r` in place. -/
def mutate_heap (h : Heap) (r : Nat) (f : List CartLine → List CartLine) : Heap :=
  h.set r (f (h.getD r []))

/-!  Lemmas about the linear scan `find_idx`. -/

/-- The scan returns `none` exactly when no line has the name. -/
theorem find_idx_eq_none_iff (name : String) (l : List CartLine) :
    find_idx name l = none ↔ ∀ p ∈ l, p.1 ≠ name := by
  induction l with
  | nil => simp [find_idx]
  | cons hd tl ih =>
    obtain ⟨n, q⟩ := hd
    by_cases h : n = name
    · subst h
      simp [find_idx]
    · simp [find_idx, h, ih]

/-- A successful scan returns an index holding a line with the name. -/
theorem find_idx_some (name : String) (l : List CartLine) (i : Nat)
    (h : find_idx name l = some i) : ∃ q, l[i]? = some (name, q) := by
  induction l generalizing i with
  | nil => simp [find_idx] at h
  | cons hd tl ih =>
    obtain ⟨n, q⟩ := hd
    by_cases hn : n = name
    · subst hn
      simp [find_idx] at h
      subst h
      exact ⟨q, by simp⟩
    · simp [find_idx, hn, Option.map_eq_some'] at h
      obtain ⟨j, hj, hij⟩ := h
      obtain ⟨q2, hq2⟩ := ih j hj
      subst hij
      exact ⟨q2, by simpa using hq2⟩

/-- Appending a line with the sought name to a cart without it is found at
the old length. -/
theorem find_idx_append (name : String) (l : List CartLine) (q : Int)
    (h : find_idx name l = none) :
    find_idx name (l ++ [(name, q)]) = some l.length := by
  induction l with
  | nil => simp [find_idx]
  | cons hd tl ih =>
    obtain ⟨n, q0⟩ := hd
    by_cases hn : n = name
    · subst hn
      simp [find_idx] at h
    · simp [find_idx, hn] at h ⊢
      rw [ih h]

/-- Setting an index that already holds the name leaves the name list
unchanged. -/
theorem map_fst_set (l : List CartLine) (i : Nat) (name : String) (e q : Int)
    (h : l[i]? = some (name, e)) :
    (l.set i (name, q)).map Prod.fst = l.map Prod.fst := by
  induction l generalizing i with
  | nil => simp at h
  | cons hd tl ih =>
    cases i with
    | zero =>
      simp at h
      subst h
      simp
    | succ j =>
      simp at h
      simp only [List.set_cons_succ, List.map_cons, ih j h]

/-!  Branch equations for the cart operations. -/

/-- The qty < 1 rejection path of `add_item`. -/
theorem add_item_lt_one (c : Cart) (name : String) (qty : Int) (h : qty < 1) :
    c.add_item name qty = (c, false, "Quantity must be at least 1.") := by
  simp [Cart.add_item, h]

/-- The insert path of `add_item` (name absent). -/
theorem add_item_absent (c : Cart) (name : String) (qty : Int) (h : 1 ≤ qty)
    (hf : c.find_index name = none) :
    c.add_item name qty =
      ({ c with items := c.items ++ [(name, min qty c.max_per_item)] }, true,
        if qty > c.max_per_item then
          "Added (capped at " ++ toString c.max_per_item ++ ")."
        else "Added.") := by
  have h1 : ¬ qty < 1 := by omega
  simp only [Cart.add_item, h1, if_false, hf]
  by_cases hq : qty > c.max_per_item
  · simp [hq]
  · simp [hq]

/-- The update path of `add_item` (name present at index i). -/
theorem add_item_present (c : Cart) (name : String) (qty : Int) (i : Nat)
    (h : 1 ≤ qty) (hf : c.find_index name = some i) :
    ∃ e, c.items[i]? = some (name, e) ∧
      c.add_item name qty =
        ({ c with items := c.items.set i (name, min (e + qty) c.max_per_item) }, true,
          if e + qty > c.max_per_item then
            "Updated (capped at " ++ toString c.max_per_item ++ ")."
          else "Updated.") := by
  obtain ⟨e, he⟩ := find_idx_some name c.items i hf
  refine ⟨e, he, ?_⟩
  have h1 : ¬ qty < 1 := by omega
  have hgetD : c.items.getD i ("", 0) = (name, e) := by
    simp [List.getD_eq_getElem?_getD, he]
  simp only [Cart.add_item, h1, if_false, hf, hgetD]
  by_cases hq : e + qty > c.max_per_item
  · simp [hq]
  · simp [hq]

/-- The absent path of `remove_item`. -/
theorem remove_item_absent (c : Cart) (name : String)
    (hf : c.find_index name = none) :
    c.remove_item name = (c, false) := by
  simp [Cart.remove_item, hf]

/-- The found path of `remove_item`. -/
theorem remove_item_found (c : Cart) (name : String) (i : Nat)
    (hf : c.find_index name = some i) :
    c.remove_item name = ({ c with items := c.items.eraseIdx i }, true) := by
  simp [Cart.remove_item, hf]

/-- The absent path of `adjust_quantity`. -/
theorem adjust_absent (c : Cart) (name : String) (qty : Int)
    (hf : c.find_index name = none) :
    c.adjust_quantity name qty = (c, false, "Item not in cart.") := by
  simp [Cart.adjust_quantity, hf]

/-- The out-of-range path of `adjust_quantity`. -/
theorem adjust_out_of_range (c : Cart) (name : String) (qty : Int) (i : Nat)
    (hf : c.find_index name = some i) (hr : qty < 1 ∨ qty > c.max_per_item) :
    c.adjust_quantity name qty =
      (c, false, "Quantity must be between 1 and " ++ toString c.max_per_item ++ ".") := by
  simp [Cart.adjust_quantity, hf, hr]

/-- The success path of `adjust_quantity`. -/
theorem adjust_ok (c : Cart) (name : String) (qty : Int) (i : Nat)
    (hf : c.find_index name = some i) (h1 : 1 ≤ qty) (h2 : qty ≤ c.max_per_item) :
    c.adjust_quantity name qty =
      ({ c with items := c.items.set i (name, qty) }, true, "Quantity updated.") := by
  have hr : ¬ (qty < 1 ∨ qty > c.max_per_item) := by omega
  simp [Cart.adjust_quantity, hf, hr]

/-!  Invariant preservation. -/

/-- Quantity invariant I2: every line quantity lies in [1, max_per_item]. -/
def qtyInv (c : Cart) : Prop :=
  ∀ p ∈ c.items, 1 ≤ p.2 ∧ p.2 ≤ c.max_per_item

/-- Uniqueness invariant I1: no two lines share an item name. -/
def namesNodup (c : Cart) : Prop :=
  (c.items.map Prod.fst).Nodup

/-- No operation changes `max_per_item`. -/
theorem apply_max (op : CartOp) (c : Cart) :
    (op.apply c).max_per_item = c.max_per_item := by
  cases op with
  | add n q =>
    by_cases hq : q < 1
    · simp [CartOp.apply, add_item_lt_one c n q hq]
    · rcases hfi : c.find_index n with _ | i
      · simp [CartOp.apply, add_item_absent c n q (by omega) hfi]
      · obtain ⟨e, he, heq⟩ := add_item_present c n q i (by omega) hfi
        simp [CartOp.apply, heq]
  | remove n =>
    rcases hfi : c.find_index n with _ | i
    · simp [CartOp.apply, remove_item_absent c n hfi]
    · simp [CartOp.apply, remove_item_found c n i hfi]
  | adjust n q =>
    rcases hfi : c.find_index n with _ | i
    · simp [CartOp.apply, adjust_absent c n q hfi]
    · by_cases hr : q < 1 ∨ q > c.max_per_item
      · simp [CartOp.apply, adjust_out_of_range c n q i hfi hr]
      · simp [CartOp.apply, adjust_ok c n q i hfi (by omega) (by omega)]
  | clearAll => simp [CartOp.apply, Cart.clear]

/-- Each operation preserves the quantity invariant when max_per_item ≥ 1. -/
theorem qtyInv_apply (op : CartOp) (c : Cart) (hM : 1 ≤ c.max_per_item)
    (h : qtyInv c) : qtyInv (op.apply c) := by
  cases op with
  | add n q =>
    by_cases hq : q < 1
    · simpa [qtyInv, CartOp.apply, add_item_lt_one c n q hq] using h
    · rcases hfi : c.find_index n with _ | i
      · intro p hp
        simp only [CartOp.apply, add_item_absent c n q (by omega) hfi] at hp ⊢
        rcases List.mem_append.mp hp with hmem | hmem
        · exact h p hmem
        · simp at hmem
          subst hmem
          exact ⟨le_min (by omega) hM, min_le_right _ _⟩
      · obtain ⟨e, he, heq⟩ := add_item_present c n q i (by omega) hfi
        have he1 : 1 ≤ e := (h _ (List.getElem?_mem he)).1
        intro p hp
        simp only [CartOp.apply, heq] at hp ⊢
        rcases List.mem_or_eq_of_mem_set hp with hmem | hmem
        · exact h p hmem
        · subst hmem
          exact ⟨le_min (by omega) hM, min_le_right _ _⟩
  | remove n =>
    rcases hfi : c.find_index n with _ | i
    · simpa [qtyInv, CartOp.apply, remove_item_absent c n hfi] using h
    · intro p hp
      simp only [CartOp.apply, remove_item_found c n i hfi] at hp ⊢
      exact h p ((List.eraseIdx_sublist c.items i).subset hp)
  | adjust n q =>
    rcases hfi : c.find_index n with _ | i
    · simpa [qtyInv, CartOp.apply, adjust_absent c n q hfi] using h
    · by_cases hr : q < 1 ∨ q > c.max_per_item
      · simpa [qtyInv, CartOp.apply, adjust_out_of_range c n q i hfi hr] using h
      · intro p hp
        simp only [CartOp.apply, adjust_ok c n q i hfi (by omega) (by omega)] at hp ⊢
        rcases List.mem_or_eq_of_mem_set hp with hmem | hmem
        · exact h p hmem
        · subst hmem
          exact ⟨by omega, by omega⟩
  | clearAll =>
    intro p hp
    simp [CartOp.apply, Cart.clear] at hp

/-- Each operation preserves the uniqueness invariant. -/
theorem namesNodup_apply (op : CartOp) (c : Cart)
    (h : namesNodup c) : namesNodup (op.apply c) := by
  cases op with
  | add n q =>
    by_cases hq : q < 1
    · simpa [namesNodup, CartOp.apply, add_item_lt_one c n q hq] using h
    · rcases hfi : c.find_index n with _ | i
      · have hn : ∀ p ∈ c.items, p.1 ≠ n :=
          (find_idx_eq_none_iff n c.items).mp hfi
        simp only [namesNodup, CartOp.apply, add_item_absent c n q (by omega) hfi,
          List.map_append, List.map_cons, List.map_nil]
        refine List.nodup_append.mpr ⟨h, List.nodup_singleton n, ?_⟩
        intro a ha ha2
        simp at ha2
        subst ha2
        obtain ⟨p, hp, hp2⟩ := List.mem_map.mp ha
        exact hn p hp hp2
      · obtain ⟨e, he, heq⟩ := add_item_present c n q i (by omega) hfi
        simpa [namesNodup, CartOp.apply, heq,
          map_fst_set c.items i n e _ he] using h
  | remove n =>
    rcases hfi : c.find_index n with _ | i
    · simpa [namesNodup, CartOp.apply, remove_item_absent c n hfi] using h
    · simp only [namesNodup, CartOp.apply, remove_item_found c n i hfi]
      exact List.Nodup.sublist ((List.eraseIdx_sublist c.items i).map Prod.fst) h
  | adjust n q =>
    rcases hfi : c.find_index n with _ | i
    · simpa [namesNodup, CartOp.apply, adjust_absent c n q hfi] using h
    · by_cases hr : q < 1 ∨ q > c.max_per_item
      · simpa [namesNodup, CartOp.apply, adjust_out_of_range c n q i hfi hr] using h
      · obtain ⟨e, he⟩ := find_idx_some n c.items i hfi
        simpa [namesNodup, CartOp.apply, adjust_ok c n q i hfi (by omega) (by omega),
          map_fst_set c.items i n e _ he] using h
  | clearAll =>
    simp [namesNodup, CartOp.apply, Cart.clear]

/-- Running a call sequence never changes `max_per_item`. -/
theorem runOps_max (ops : List CartOp) (c : Cart) :
    (runOps c ops).max_per_item = c.max_per_item := by
  induction ops generalizing c with
  | nil => rfl
  | cons op rest ih => rw [runOps, ih, apply_max]

/-- The quantity invariant holds after any call sequence. -/
theorem qtyInv_runOps (ops : List CartOp) (c : Cart)
    (hM : 1 ≤ c.max_per_item) (h : qtyInv c) : qtyInv (runOps c ops) := by
  induction ops generalizing c with
  | nil => exact h
  | cons op rest ih =>
    rw [runOps]
    exact ih (op.apply c) (by rw [apply_max]; exact hM) (qtyInv_apply op c hM h)

/-- The uniqueness invariant holds after any call sequence. -/
theorem namesNodup_runOps (ops : List CartOp) (c : Cart)
    (h : namesNodup c) : namesNodup (runOps c ops) := by
  induction ops generalizing c with
  | nil => exact h
  | cons op rest ih =>
    rw [runOps]
    exact ih (op.apply c) (namesNodup_apply op c h)

/-!  Claim theorems. -/

/-- C1 (cap invariant): for every max_per_item M ≥ 1 and every sequence of
add_item and adjust_quantity calls starting from a fresh Cart(max_per_item=M),
every CartLine quantity in the cart is within [1, M]; in particular no
add_item sequence can make any quantity exceed M. -/
theorem claim_c1_cap_invariant (M : Int) (ops : List CartOp) (hM : 1 ≤ M)
    (_hops : ∀ op ∈ ops, op.addOrAdjust = true) :
    ∀ p ∈ (runOps ⟨[], M⟩ ops).items, 1 ≤ p.2 ∧ p.2 ≤ M := by
  intro p hp
  have h := qtyInv_runOps ops ⟨[], M⟩ hM (by intro p hp; simp at hp)
  have h2 := h p hp
  rwa [runOps_max] at h2

theorem claim_c1_cap_invariant_witness :
    ((1 : Int) ≤ 10
      ∧ ∀ op ∈ [CartOp.add "Apple" 99, CartOp.adjust "Apple" 3, CartOp.add "Apple" 99],
          op.addOrAdjust = true)
    ∧ ∀ p ∈ (runOps ⟨[], 10⟩
          [CartOp.add "Apple" 99, CartOp.adjust "Apple" 3, CartOp.add "Apple" 99]).items,
        1 ≤ p.2 ∧ p.2 ≤ 10 :=
  ⟨⟨by norm_num, by decide⟩,
    claim_c1_cap_invariant 10 _ (by norm_num) (by decide)⟩

/-- C2 (uniqueness invariant): after any sequence of add_item, remove_item,
adjust_quantity and clear calls from a fresh Cart, at most one CartLine per
item name exists in the cart. -/
theorem claim_c2_uniqueness (M : Int) (ops : List CartOp) (name : String) :
    (((runOps ⟨[], M⟩ ops).items.map Prod.fst).count name) ≤ 1 := by
  have h := namesNodup_runOps ops ⟨[], M⟩ (by simp [namesNodup])
  exact List.nodup_iff_count_le_one.mp h name

/-- C3 (add_item postcondition): with qty ≥ 1, an absent name is appended as
(name, min(qty, max_per_item)) with ok=True and a capped message exactly when
qty > max_per_item; a present name with existing quantity e is replaced by
min(e+qty, max_per_item) with ok=True and the capped Updated message exactly
when e+qty > max_per_item; qty equal to max_per_item gets no capping message. -/
theorem claim_c3_add_item_post (c : Cart) (name : String) (qty : Int) (h : 1 ≤ qty) :
    (c.find_index name = none →
      c.add_item name qty =
        ({ c with items := c.items ++ [(name, min qty c.max_per_item)] }, true,
          if qty > c.max_per_item then
            "Added (capped at " ++ toString c.max_per_item ++ ")."
          else "Added."))
    ∧ (∀ i, c.find_index name = some i →
        ∃ e, c.items[i]? = some (name, e) ∧
          c.add_item name qty =
            ({ c with items := c.items.set i (name, min (e + qty) c.max_per_item) }, true,
              if e + qty > c.max_per_item then
                "Updated (capped at " ++ toString c.max_per_item ++ ")."
              else "Updated."))
    ∧ (qty = c.max_per_item → c.find_index name = none →
        (c.add_item name qty).2.2 = "Added.") := by
  refine ⟨fun hf => add_item_absent c name qty h hf,
    fun i hf => add_item_present c name qty i h hf,
    fun hq hf => ?_⟩
  rw [add_item_absent c name qty h hf]
  simp only [hq]
  rw [if_neg (by omega)]

theorem claim_c3_add_item_post_witness :
    ((1 : Int) ≤ 15
      ∧ (Cart.mk [("Pear", 2)] 10).find_index "Apple" = none)
    ∧ (Cart.mk [("Pear", 2)] 10).add_item "Apple" 15 =
        (⟨[("Pear", 2), ("Apple", 10)], 10⟩, true, "Added (capped at 10).") :=
  ⟨⟨by norm_num, by decide⟩, by
    have h := (claim_c3_add_item_post ⟨[("Pear", 2)], 10⟩ "Apple" 15 (by norm_num)).1
      (by decide)
    rw [h]
    decide⟩

/-- The scan finding `none` is exactly the name being absent. -/
theorem find_idx_none_iff_not_mem (name : String) (l : List CartLine) :
    find_idx name l = none ↔ name ∉ l.map Prod.fst := by
  rw [find_idx_eq_none_iff]
  constructor
  · intro h hmem
    obtain ⟨p, hp, hp2⟩ := List.mem_map.mp hmem
    exact h p hp hp2
  · intro h p hp hp2
    exact h (List.mem_map.mpr ⟨p, hp, hp2⟩)

/-- Popping the first index with a name, under uniqueness, removes exactly
the lines with that name. -/
theorem eraseIdx_find_eq_filter (name : String) (l : List CartLine)
    (h : (l.map Prod.fst).Nodup) (i : Nat) (hi : find_idx name l = some i) :
    l.eraseIdx i = l.filter (fun p => !(p.1 == name)) := by
  induction l generalizing i with
  | nil => simp [find_idx] at hi
  | cons hd tl ih =>
    obtain ⟨n, q⟩ := hd
    simp only [List.map_cons, List.nodup_cons] at h
    by_cases hn : n = name
    · subst hn
      simp [find_idx] at hi
      subst hi
      rw [List.eraseIdx_cons_zero, List.filter_cons]
      simp only [beq_self_eq_true, Bool.not_true, Bool.false_eq_true, if_false]
      rw [eq_comm, List.filter_eq_self]
      intro p hp
      have hne : p.1 ≠ n := fun hp2 => h.1 (List.mem_map.mpr ⟨p, hp, hp2⟩)
      simp [hne]
    · simp only [find_idx, hn, if_false, Option.map_eq_some'] at hi
      obtain ⟨j, hj, hij⟩ := hi
      subst hij
      rw [List.eraseIdx_cons_succ, List.filter_cons]
      have hb : (!((n, q).1 == name)) = true := by simp [hn]
      rw [if_pos hb, ih h.2 j hj]

/-- C4 (adjust_quantity): succeeds iff the name is present AND 1 ≤ qty ≤
max_per_item; on success the line quantity becomes exactly qty; on any
failure the returned message is the corresponding one and the cart is
completely unchanged. -/
theorem claim_c4_adjust_quantity (c : Cart) (name : String) (qty : Int) :
    ((c.adjust_quantity name qty).2.1 = true ↔
      (c.find_index name).isSome = true ∧ 1 ≤ qty ∧ qty ≤ c.max_per_item)
    ∧ (∀ i, c.find_index name = some i → 1 ≤ qty → qty ≤ c.max_per_item →
        c.adjust_quantity name qty =
          ({ c with items := c.items.set i (name, qty) }, true, "Quantity updated."))
    ∧ (c.find_index name = none →
        c.adjust_quantity name qty = (c, false, "Item not in cart."))
    ∧ ((c.find_index name).isSome = true → (qty < 1 ∨ qty > c.max_per_item) →
        c.adjust_quantity name qty =
          (c, false, "Quantity must be between 1 and " ++ toString c.max_per_item ++ ".")) := by
  refine ⟨⟨?_, ?_⟩, fun i hf h1 h2 => adjust_ok c name qty i hf h1 h2,
    fun hf => adjust_absent c name qty hf, ?_⟩
  · intro hok
    rcases hfi : c.find_index name with _ | i
    · rw [adjust_absent c name qty hfi] at hok
      simp at hok
    · by_cases hr : qty < 1 ∨ qty > c.max_per_item
      · rw [adjust_out_of_range c name qty i hfi hr] at hok
        simp at hok
      · exact ⟨by simp [hfi], by omega, by omega⟩
  · rintro ⟨hs, h1, h2⟩
    rcases hfi : c.find_index name with _ | i
    · rw [hfi] at hs
      simp at hs
    · rw [adjust_ok c name qty i hfi h1 h2]
  · intro hs hr
    rcases hfi : c.find_index name with _ | i
    · rw [hfi] at hs
      simp at hs
    · exact adjust_out_of_range c name qty i hfi hr

theorem claim_c4_adjust_quantity_witness :
    ((Cart.mk [("Apple", 2)] 10).find_index "Apple" = some 0
      ∧ (1 : Int) ≤ 3 ∧ (3 : Int) ≤ 10)
    ∧ (Cart.mk [("Apple", 2)] 10).adjust_quantity "Apple" 3 =
        (⟨[("Apple", 3)], 10⟩, true, "Quantity updated.") :=
  ⟨⟨by decide, by norm_num, by norm_num⟩,
    (claim_c4_adjust_quantity ⟨[("Apple", 2)], 10⟩ "Apple" 3).2.1 0
      (by decide) (by norm_num) (by norm_num)⟩

/-- C5 (remove_item): with unique names, remove_item returns True iff the
name was present; afterwards no line with the name remains, the other lines
keep their order (the result is a filter of the original list), and when the
name was absent the cart is unchanged. -/
theorem claim_c5_remove_item (c : Cart) (name : String)
    (h : (c.items.map Prod.fst).Nodup) :
    ((c.remove_item name).2 = true ↔ name ∈ c.items.map Prod.fst)
    ∧ name ∉ ((c.remove_item name).1.items.map Prod.fst)
    ∧ (c.remove_item name).1.items = c.items.filter (fun p => !(p.1 == name))
    ∧ (c.remove_item name).1.max_per_item = c.max_per_item
    ∧ (name ∉ c.items.map Prod.fst → (c.remove_item name).1 = c) := by
  rcases hfi : c.find_index name with _ | i
  · have hnm : name ∉ c.items.map Prod.fst :=
      (find_idx_none_iff_not_mem name c.items).mp hfi
    rw [remove_item_absent c name hfi]
    refine ⟨by simp [hnm], by simpa using hnm, ?_, rfl, fun _ => rfl⟩
    rw [eq_comm, List.filter_eq_self]
    intro p hp
    have hne : p.1 ≠ name := fun hp2 => hnm (List.mem_map.mpr ⟨p, hp, hp2⟩)
    simp [hne]
  · obtain ⟨e, he⟩ := find_idx_some name c.items i hfi
    have hmem : name ∈ c.items.map Prod.fst :=
      List.mem_map.mpr ⟨(name, e), List.getElem?_mem he, rfl⟩
    have herase := eraseIdx_find_eq_filter name c.items h i hfi
    rw [remove_item_found c name i hfi]
    refine ⟨by simp [hmem], ?_, herase, rfl, fun hn => absurd hmem hn⟩
    simp only [herase]
    intro hbad
    obtain ⟨p, hp, hp2⟩ := List.mem_map.mp hbad
    have := (List.mem_filter.mp hp).2
    rw [hp2] at this
    simp at this

theorem claim_c5_remove_item_witness :
    (([("Apple", (2 : Int)), ("Pear", 1)].map Prod.fst).Nodup)
    ∧ ((Cart.mk [("Apple", 2), ("Pear", 1)] 10).remove_item "Apple").1.items
        = [("Pear", 1)] :=
  ⟨by decide, by
    have h := (claim_c5_remove_item ⟨[("Apple", 2), ("Pear", 1)], 10⟩ "Apple"
      (by decide)).2.2.1
    rw [h]
    decide⟩

/-- C6 (add_item rejection atomicity): qty < 1 yields (False, "Quantity must
be at least 1.") with the cart unchanged, and add_item leaves the cart
unchanged on every path whose ok is False. -/
theorem claim_c6_add_item_reject (c : Cart) (name : String) (qty : Int) :
    (qty < 1 → c.add_item name qty = (c, false, "Quantity must be at least 1."))
    ∧ ((c.add_item name qty).2.1 = false → (c.add_item name qty).1 = c) := by
  refine ⟨fun h => add_item_lt_one c name qty h, fun hfalse => ?_⟩
  by_cases hq : qty < 1
  · rw [add_item_lt_one c name qty hq]
  · exfalso
    rcases hfi : c.find_index name with _ | i
    · rw [add_item_absent c name qty (by omega) hfi] at hfalse
      simp at hfalse
    · obtain ⟨e, he, heq⟩ := add_item_present c name qty i (by omega) hfi
      rw [heq] at hfalse
      simp at hfalse

theorem claim_c6_add_item_reject_witness :
    ((0 : Int) < 1)
    ∧ (Cart.mk [("Apple", 2)] 10).add_item "Apple" 0 =
        (⟨[("Apple", 2)], 10⟩, false, "Quantity must be at least 1.") :=
  ⟨by norm_num,
    (claim_c6_add_item_reject ⟨[("Apple", 2)], 10⟩ "Apple" 0).1 (by norm_num)⟩

/-- Stripping the empty string gives the empty string. -/
theorem py_strip_empty : py_strip "" = "" := by decide

/-- A non-empty strip result refutes the emptiness guard of the validator. -/
theorem validate_guard_false (n : String) (hn : py_strip n ≠ "") :
    ¬ (n = "" ∨ py_strip n = "") := by
  rintro (h1 | h2)
  · rw [h1] at hn
    exact hn py_strip_empty
  · exact hn h2

/-- C7 (validate_order_fields): the checks run in order — empty trimmed name
fails with "Item name is required."; else a non-digit trimmed quantity fails
with "Quantity must be a whole number."; else a parsed value ≤ 0 fails with
"Quantity must be greater than zero." and one above max_per_item fails with
"Quantity must be no more than {max_per_item}."; otherwise it succeeds with
an empty message. -/
theorem claim_c7_validate_order_fields (s : KioskState) (n q : String) :
    (py_strip n = "" →
      validate_order_fields s n q = (s, false, "Item name is required."))
    ∧ (py_strip n ≠ "" → str_isdigit (py_strip q) = false →
      validate_order_fields s n q = (s, false, "Quantity must be a whole number."))
    ∧ (py_strip n ≠ "" → str_isdigit (py_strip q) = true →
      (parse_digits (py_strip q) : Int) ≤ 0 →
      validate_order_fields s n q = (s, false, "Quantity must be greater than zero."))
    ∧ (py_strip n ≠ "" → str_isdigit (py_strip q) = true →
      0 < (parse_digits (py_strip q) : Int) →
      (parse_digits (py_strip q) : Int) > s.cart.max_per_item →
      validate_order_fields s n q =
        (s, false, "Quantity must be no more than " ++ toString s.cart.max_per_item ++ "."))
    ∧ (py_strip n ≠ "" → str_isdigit (py_strip q) = true →
      0 < (parse_digits (py_strip q) : Int) →
      (parse_digits (py_strip q) : Int) ≤ s.cart.max_per_item →
      validate_order_fields s n q = (s, true, "")) := by
  refine ⟨fun h => ?_, fun hn hd => ?_, fun hn hd hle => ?_,
    fun hn hd h0 hgt => ?_, fun hn hd h0 hle => ?_⟩
  · simp [validate_order_fields, h]
  · unfold validate_order_fields
    rw [if_neg (validate_guard_false n hn)]
    dsimp only
    rw [if_pos (by simp [hd])]
  · unfold validate_order_fields
    rw [if_neg (validate_guard_false n hn)]
    dsimp only
    rw [if_neg (not_not_intro hd)]
    rw [if_pos hle]
  · unfold validate_order_fields
    rw [if_neg (validate_guard_false n hn)]
    dsimp only
    rw [if_neg (not_not_intro hd)]
    rw [if_neg (by omega : ¬ ((parse_digits (py_strip q) : Int) ≤ 0)), if_pos hgt]
  · unfold validate_order_fields
    rw [if_neg (validate_guard_false n hn)]
    dsimp only
    rw [if_neg (not_not_intro hd)]
    rw [if_neg (by omega : ¬ ((parse_digits (py_strip q) : Int) ≤ 0)),
      if_neg (by omega : ¬ ((parse_digits (py_strip q) : Int) > s.cart.max_per_item))]

theorem claim_c7_validate_order_fields_witness :
    (py_strip "Apple" ≠ "" ∧ str_isdigit (py_strip "15") = true
      ∧ 0 < (parse_digits (py_strip "15") : Int)
      ∧ (parse_digits (py_strip "15") : Int) > (KioskState.mk ⟨[], 10⟩).cart.max_per_item)
    ∧ validate_order_fields ⟨⟨[], 10⟩⟩ "Apple" "15" =
        (⟨⟨[], 10⟩⟩, false, "Quantity must be no more than 10.") :=
  ⟨⟨by decide, by decide, by decide, by decide⟩, by
    have h := (claim_c7_validate_order_fields ⟨⟨[], 10⟩⟩ "Apple" "15").2.2.2.1
      (by decide) (by decide) (by decide) (by decide)
    rw [h]
    decide⟩

/-- C9 (validation purity): validate_order_fields returns the kiosk state it
was given, unchanged, for every input. -/
theorem claim_c9_validate_purity (s : KioskState) (n q : String) :
    (validate_order_fields s n q).1 = s := by
  unfold validate_order_fields
  split
  · rfl
  · dsimp only
    split
    · rfl
    · split
      · rfl
      · split
        · rfl
        · rfl

/-- Reading the address returned by to_list yields the cart contents. -/
theorem to_list_heap_getD (h2 : Heap) (a : Nat) :
    (to_list_heap h2 a).1.getD (to_list_heap h2 a).2 [] = h2.getD a [] := by
  simp [to_list_heap, List.getD_eq_getElem?_getD, List.getElem?_concat_length]

/-- C8 (snapshot isolation of to_list): at heap level, to_list returns a
fresh address whose contents equal the cart lines; mutating the returned
list object leaves the cart object unchanged, and a subsequent to_list
still returns the original lines. -/
theorem claim_c8_to_list_snapshot (h : Heap) (a : Nat)
    (f : List CartLine → List CartLine) (ha : a < h.length) :
    ((to_list_heap h a).1.getD (to_list_heap h a).2 [] = h.getD a [])
    ∧ ((mutate_heap (to_list_heap h a).1 (to_list_heap h a).2 f).getD a []
        = h.getD a [])
    ∧ ((to_list_heap (mutate_heap (to_list_heap h a).1 (to_list_heap h a).2 f) a).1.getD
        (to_list_heap (mutate_heap (to_list_heap h a).1 (to_list_heap h a).2 f) a).2 []
        = h.getD a []) := by
  have hne : h.length ≠ a := by omega
  have hmut : (mutate_heap (to_list_heap h a).1 (to_list_heap h a).2 f).getD a []
      = h.getD a [] := by
    simp [mutate_heap, to_list_heap, List.getD_eq_getElem?_getD,
      List.getElem?_set_ne hne, List.getElem?_append_left ha]
  exact ⟨to_list_heap_getD h a, hmut, by rw [to_list_heap_getD]; exact hmut⟩

theorem claim_c8_to_list_snapshot_witness :
    (0 < ([[("Apple", (1 : Int))]] : Heap).length)
    ∧ (mutate_heap (to_list_heap [[("Apple", 1)]] 0).1 (to_list_heap [[("Apple", 1)]] 0).2
        (fun _ => [("Hacked", 99)])).getD 0 [] = [("Apple", 1)] :=
  ⟨by decide, by
    have h := (claim_c8_to_list_snapshot [[("Apple", 1)]] 0
      (fun _ => [("Hacked", 99)]) (by decide)).2.1
    rw [h]
    decide⟩

/-- C10 (implicit, empty item name accepted by Cart): with qty ≥ 1 and ""
absent, add_item "" succeeds and appends a line named ""; remove_item and
adjust_quantity likewise operate on the empty-named line with no
non-emptiness check; only validate_order_fields rejects the empty name. -/
theorem claim_c10_empty_name (c : Cart) (qty : Int)
    (h1 : 1 ≤ qty) (hM : 1 ≤ c.max_per_item) (h2 : c.find_index "" = none) :
    (c.add_item "" qty).2.1 = true
    ∧ (c.add_item "" qty).1.items = c.items ++ [("", min qty c.max_per_item)]
    ∧ "" ∈ ((c.add_item "" qty).1.items.map Prod.fst)
    ∧ ((c.add_item "" qty).1.remove_item "").2 = true
    ∧ ((c.add_item "" qty).1.adjust_quantity "" 1).2.1 = true
    ∧ (∀ q2 : String, (validate_order_fields ⟨c⟩ "" q2).2 = (false, "Item name is required.")) := by
  have heq := add_item_absent c "" qty h1 h2
  have hitems : (c.add_item "" qty).1.items = c.items ++ [("", min qty c.max_per_item)] := by
    rw [heq]
  have hmax : (c.add_item "" qty).1.max_per_item = c.max_per_item := by
    rw [heq]
  have hfind : (c.add_item "" qty).1.find_index "" = some c.items.length := by
    rw [Cart.find_index, hitems]
    exact find_idx_append "" c.items _ h2
  refine ⟨by rw [heq], hitems, ?_, ?_, ?_, ?_⟩
  · rw [hitems]
    simp
  · rw [remove_item_found _ "" c.items.length hfind]
  · rw [adjust_ok ((c.add_item "" qty).1) "" 1 c.items.length hfind (by norm_num)
      (by rw [hmax]; exact hM)]
  · intro q2
    simp [validate_order_fields]

theorem claim_c10_empty_name_witness :
    ((1 : Int) ≤ 2 ∧ (1 : Int) ≤ 10
      ∧ (Cart.mk [("Apple", 3)] 10).find_index "" = none)
    ∧ ((Cart.mk [("Apple", 3)] 10).add_item "" 2).2.1 = true :=
  ⟨⟨by norm_num, by norm_num, by decide⟩,
    (claim_c10_empty_name ⟨[("Apple", 3)], 10⟩ 2 (by norm_num) (by norm_num)
      (by decide)).1⟩
